import Mathlib

/-!
Verification of the `linux-fan-utility` daemon core.

The development shallowly embeds the Rust sources:

* `src/curve.rs` — curve points, construction (which sorts by temperature),
  linear interpolation, and validation.  Rust `f64` temperatures are modelled
  as rationals (`ℚ`); the `u8` PWM duty is a natural number, with the `u8`
  range `0..=255` carried as a side condition where a statement needs it.
* `src/bin/daemon.rs` — the protocol dispatcher `process_request`, acting on
  the shared daemon state.  The hardware access layer and the configuration
  persistence layer (external collaborators per the design) are an explicit
  oracle record `HwEnv`; the tokio mutex makes each request an atomic
  read-modify-write on the state, so a batch of concurrent requests is
  modelled as a fold of `process_request` over an arbitrary arrival order.
* a NaN-aware model of `FanCurve::new` (`FanCurveF.new`), where an `f64`
  temperature is `Option ℚ` (`none` = NaN) and the panic of the sort
  comparator's `unwrap` is `Option.none` of the whole construction.
-/

/-- A single point on a fan curve (`CurvePoint` in `src/curve.rs`).
`temp_c` is the `f64` temperature in °C, modelled as a rational;
`pwm` is the `u8` PWM duty value (0–255). -/
structure CurvePoint where
  temp_c : ℚ
  pwm : ℕ
deriving DecidableEq

/-- The sort performed by `FanCurve::new`:
`points.sort_by(|a, b| a.temp_c.partial_cmp(&b.temp_c).unwrap())`, a stable
sort ascending by temperature (`List.mergeSort` is stable). -/
def sortPoints (points : List CurvePoint) : List CurvePoint :=
  points.mergeSort (fun a b => decide (a.temp_c ≤ b.temp_c))

/-- A named fan curve (`FanCurve` in `src/curve.rs`). -/
structure FanCurve where
  name : String
  points : List CurvePoint
deriving DecidableEq

/-- `FanCurve::new`: points are sorted by temperature automatically. -/
def FanCurve.new (name : String) (points : List CurvePoint) : FanCurve :=
  ⟨name, sortPoints points⟩

/-- Rust `f64::round`: rounds half away from zero. -/
def rustRound (q : ℚ) : ℤ :=
  if 0 ≤ q then ⌊q + 1/2⌋ else -⌊-q + 1/2⌋

/-- `.clamp(0.0, 255.0) as u8` applied to an already-rounded value:
clamp into `[0, 255]` and convert to a natural number. -/
def clampU8 (z : ℤ) : ℕ := (min 255 (max 0 z)).toNat

/-- Body of the window loop of `FanCurve::interpolate` for one window
`(lo, hi)`: if the temperature span is zero return `lo.pwm`, otherwise
linearly interpolate, round, clamp. -/
def interpOne (lo hi : CurvePoint) (t : ℚ) : ℕ :=
  let range_t := hi.temp_c - lo.temp_c
  if range_t = 0 then lo.pwm
  else
    let frac := (t - lo.temp_c) / range_t
    clampU8 (rustRound ((lo.pwm : ℚ) + frac * ((hi.pwm : ℚ) - (lo.pwm : ℚ))))

/-- The `for window in self.points.windows(2)` loop of `interpolate`:
return the value of the first window `(lo, hi)` with
`lo.temp_c ≤ t ∧ t ≤ hi.temp_c`, if any. -/
def scanWindows (t : ℚ) : List CurvePoint → Option ℕ
  | lo :: hi :: rest =>
    if lo.temp_c ≤ t ∧ t ≤ hi.temp_c then some (interpOne lo hi t)
    else scanWindows t (hi :: rest)
  | _ => none

/-- `FanCurve::interpolate` (`src/curve.rs`): empty point set returns 0; a
single point, or a temperature at or below the first point's, returns the
first point's pwm; a temperature at or above the last point's returns the
last point's pwm; otherwise the first bracketing window is interpolated,
falling back to the last point's pwm if no window matches. -/
def FanCurve.interpolate (c : FanCurve) (t : ℚ) : ℕ :=
  match c.points with
  | [] => 0
  | p :: ps =>
    if ps = [] ∨ t ≤ p.temp_c then p.pwm
    else
      let last := (p :: ps).getLast (List.cons_ne_nil p ps)
      if last.temp_c ≤ t then last.pwm
      else (scanWindows t (p :: ps)).getD last.pwm

/-- The error message produced by the strictly-increasing-temperature check of
`FanCurve::validate` for point index `i`. -/
def monoMsg (i : ℕ) : String :=
  "Points must have strictly increasing temperatures (point " ++ toString i ++ ")"

/-- The error message produced by the size check of `FanCurve::validate`. -/
def sizeMsg : String := "Curve must have at least 2 points"

/-- The indexed loop of `FanCurve::validate`: starting from point index `i`
with predecessor `prev`, fail at the first point whose temperature is not
strictly above its predecessor's. -/
def checkIncreasing : CurvePoint → ℕ → List CurvePoint → Except String Unit
  | _, _, [] => Except.ok ()
  | prev, i, p :: rest =>
    if p.temp_c ≤ prev.temp_c then Except.error (monoMsg i)
    else checkIncreasing p (i + 1) rest

/-- `FanCurve::validate` (`src/curve.rs`): error if fewer than 2 points, or if
some point's temperature is not strictly above its predecessor's in the
stored order. -/
def FanCurve.validate (c : FanCurve) : Except String Unit :=
  if c.points.length < 2 then Except.error sizeMsg
  else
    match c.points with
    | [] => Except.ok ()
    | p :: rest => checkIncreasing p 1 rest

/-- `default_silent_curve` from `src/curve.rs`. -/
def default_silent_curve : FanCurve :=
  FanCurve.new "silent" [⟨30, 0⟩, ⟨50, 64⟩, ⟨70, 153⟩, ⟨80, 204⟩, ⟨90, 255⟩]

/-- `default_performance_curve` from `src/curve.rs`. -/
def default_performance_curve : FanCurve :=
  FanCurve.new "performance" [⟨30, 64⟩, ⟨50, 128⟩, ⟨65, 204⟩, ⟨75, 255⟩]

/-- Exact linear interpolation over ℚ for one window, before rounding.
Specification-side companion of `interpOne`. -/
def lerpQ (lo hi : CurvePoint) (t : ℚ) : ℚ :=
  if hi.temp_c - lo.temp_c = 0 then lo.pwm
  else (lo.pwm : ℚ) + (t - lo.temp_c) / (hi.temp_c - lo.temp_c) * ((hi.pwm : ℚ) - (lo.pwm : ℚ))

/-- The exact (unrounded) piecewise-linear curve value over ℚ, with plateaus
before the first and after the last point.  Specification-side function used
to factor `interpolate` as clamp ∘ round ∘ `curveValQ` on invariant-satisfying
curves. -/
def curveValQ : List CurvePoint → ℚ → ℚ
  | [], _ => 0
  | [p], _ => p.pwm
  | p :: q :: rest, t =>
    if t ≤ p.temp_c then p.pwm
    else if t ≤ q.temp_c then lerpQ p q t
    else curveValQ (q :: rest) t

/-! ### Hardware and configuration data model (`src/hwmon.rs`, `src/config.rs`) -/

/-- A discovered fan (`Fan` in `src/hwmon.rs`).  Filesystem paths are opaque
strings here. -/
structure Fan where
  id : String
  label : Option String
  pwm_path : String
  pwm_enable_path : String
  rpm_path : Option String
  hwmon_name : String
deriving DecidableEq

/-- A discovered temperature sensor (`TempSensor` in `src/hwmon.rs`). -/
structure TempSensor where
  id : String
  label : Option String
  input_path : String
  hwmon_name : String
deriving DecidableEq

/-- Live readings for a fan (`FanStatus` in `src/hwmon.rs`). -/
structure FanStatus where
  id : String
  label : Option String
  hwmon_name : String
  pwm : Option ℕ
  pwm_enable : Option ℕ
  rpm : Option ℕ
deriving DecidableEq

/-- Live reading for a temperature sensor (`TempStatus` in `src/hwmon.rs`). -/
structure TempStatus where
  id : String
  label : Option String
  hwmon_name : String
  temp_c : Option ℚ
deriving DecidableEq

/-- Daemon settings (`DaemonConfig` in `src/config.rs`). -/
structure DaemonConfig where
  poll_interval_ms : ℕ
  socket_path : String
  restore_on_exit : Bool
deriving DecidableEq

/-- How a fan should be controlled (`FanAssignment` in `src/config.rs`). -/
inductive FanAssignment where
  | auto : FanAssignment
  | manual (pwm : ℕ) : FanAssignment
  | curve (curve_name : String) (temp_sensor_id : String) : FanAssignment
deriving DecidableEq

/-- Top-level configuration (`Config` in `src/config.rs`).  The
`HashMap<String, FanAssignment>` keyed by fan id is modelled as an
association list with unique keys. -/
structure Config where
  daemon : DaemonConfig
  curves : List FanCurve
  fans : List (String × FanAssignment)
deriving DecidableEq

/-- `HashMap::insert` on the association-list model of `Config::fans`:
replace the entry for the key if present, otherwise add one. -/
def insertAssignment : List (String × FanAssignment) → String → FanAssignment →
    List (String × FanAssignment)
  | [], k, v => [(k, v)]
  | kv :: rest, k, v =>
    if kv.1 = k then (k, v) :: rest else kv :: insertAssignment rest k v

/-! ### Protocol (`src/protocol.rs`) -/

/-- Client requests (`Request` in `src/protocol.rs`). -/
inductive Request where
  | getStatus
  | setManual (fan_id : String) (pwm : ℕ)
  | setCurve (fan_id : String) (curve_name : String) (temp_sensor_id : String)
  | setAuto (fan_id : String)
  | listCurves
  | upsertCurve (name : String) (points : List CurvePoint)
  | deleteCurve (name : String)
  | saveConfig
  | reloadConfig
  | subscribe
  | unsubscribe
deriving DecidableEq

/-- Fan assignment info sent in status messages (`FanAssignmentInfo`). -/
structure FanAssignmentInfo where
  fan_id : String
  assignment : FanAssignment
deriving DecidableEq

/-- Daemon responses (`Response` in `src/protocol.rs`). -/
inductive Response where
  | status (fans : List FanStatus) (temps : List TempStatus)
      (assignments : List FanAssignmentInfo)
  | curves (curves : List FanCurve)
  | ok (message : String)
  | error (message : String)
deriving DecidableEq

/-! ### Shared daemon state and dispatcher (`src/bin/daemon.rs`) -/

/-- The shared daemon state (`DaemonState` in `src/bin/daemon.rs`), owned by
one mutex; `process_request` runs with the lock held for its whole duration. -/
structure DaemonState where
  config : Config
  fans : List Fan
  sensors : List TempSensor
  config_path : String
deriving DecidableEq

/-- Oracle for the external collaborators used by `process_request`: the
hardware access layer (`src/hwmon.rs`) and configuration persistence
(`src/config.rs`).  Each fallible primitive is a function returning
`Except`, standing for the corresponding `io::Result`. -/
structure HwEnv where
  set_manual_pwm : Fan → ℕ → Except String Unit
  set_pwm_enable : Fan → ℕ → Except String Unit
  restore_automatic : Fan → Except String Unit
  read_all_fan_statuses : List Fan → List FanStatus
  read_all_temp_statuses : List TempSensor → List TempStatus
  load_config : String → Except String Config
  save_config : String → Config → Except String Unit

/-- The `UpsertCurve` arm's `iter_mut().find(..)`-then-replace-else-push on
the curve list: replace the first curve with a matching name, else append. -/
def upsertCurveList : List FanCurve → FanCurve → List FanCurve
  | [], c => [c]
  | d :: ds, c => if d.name = c.name then c :: ds else d :: upsertCurveList ds c

/-- `process_request` from `src/bin/daemon.rs`: the protocol dispatcher.
Returns the response together with the daemon state as it stands when the
lock is released.  `ReloadConfig` additionally runs `apply_assignments`,
which only performs hardware writes and never mutates the state. -/
def process_request (env : HwEnv) (req : Request) (st : DaemonState) :
    Response × DaemonState :=
  match req with
  | .getStatus =>
    (Response.status (env.read_all_fan_statuses st.fans)
      (env.read_all_temp_statuses st.sensors)
      (st.config.fans.map (fun kv => ⟨kv.1, kv.2⟩)), st)
  | .setManual fan_id pwm =>
    match st.fans.find? (fun f => f.id == fan_id) with
    | some fan =>
      match env.set_manual_pwm fan pwm with
      | .ok _ =>
        (Response.ok ("Set " ++ fan_id ++ " to manual PWM " ++ toString pwm),
         { st with config :=
            { st.config with
              fans := insertAssignment st.config.fans fan_id (.manual pwm) } })
      | .error e => (Response.error ("Failed to set PWM: " ++ e), st)
    | none => (Response.error ("Unknown fan: " ++ fan_id), st)
  | .setCurve fan_id curve_name temp_sensor_id =>
    if !(st.config.curves.any (fun c => c.name == curve_name)) then
      (Response.error ("Unknown curve: " ++ curve_name), st)
    else if !(st.sensors.any (fun s => s.id == temp_sensor_id)) then
      (Response.error ("Unknown temp sensor: " ++ temp_sensor_id), st)
    else
      match st.fans.find? (fun f => f.id == fan_id) with
      | some fan =>
        match env.set_pwm_enable fan 1 with
        | .error e => (Response.error ("Failed to enable manual mode: " ++ e), st)
        | .ok _ =>
          (Response.ok ("Assigned curve '" ++ curve_name ++ "' to " ++ fan_id),
           { st with config :=
              { st.config with
                fans := insertAssignment st.config.fans fan_id
                  (.curve curve_name temp_sensor_id) } })
      | none => (Response.error ("Unknown fan: " ++ fan_id), st)
  | .setAuto fan_id =>
    match st.fans.find? (fun f => f.id == fan_id) with
    | some fan =>
      match env.restore_automatic fan with
      | .ok _ =>
        (Response.ok ("Restored " ++ fan_id ++ " to automatic control"),
         { st with config :=
            { st.config with
              fans := insertAssignment st.config.fans fan_id .auto } })
      | .error e => (Response.error ("Failed to restore auto: " ++ e), st)
    | none => (Response.error ("Unknown fan: " ++ fan_id), st)
  | .listCurves => (Response.curves st.config.curves, st)
  | .upsertCurve name points =>
    let curve := FanCurve.new name points
    match curve.validate with
    | .error e => (Response.error e, st)
    | .ok _ =>
      (Response.ok ("Curve '" ++ name ++ "' saved"),
       { st with config :=
          { st.config with curves := upsertCurveList st.config.curves curve } })
  | .deleteCurve name =>
    let before := st.config.curves.length
    let newCurves := st.config.curves.filter (fun c => !(c.name == name))
    let st' := { st with config := { st.config with curves := newCurves } }
    if newCurves.length < before then
      (Response.ok ("Deleted curve '" ++ name ++ "'"), st')
    else (Response.error ("Curve '" ++ name ++ "' not found"), st')
  | .saveConfig =>
    match env.save_config st.config_path st.config with
    | .ok _ => (Response.ok ("Config saved to " ++ st.config_path), st)
    | .error e => (Response.error ("Failed to save config: " ++ e), st)
  | .reloadConfig =>
    match env.load_config st.config_path with
    | .ok cfg => (Response.ok "Config reloaded", { st with config := cfg })
    | .error e => (Response.error ("Failed to reload config: " ++ e), st)
  | .subscribe => (Response.ok "Acknowledged", st)
  | .unsubscribe => (Response.ok "Acknowledged", st)

/-- A batch of requests dispatched one after the other, each holding the
state lock for its whole read-modify-write: the mutex serializes concurrent
clients, so an arbitrary arrival order of concurrent requests is exactly an
arbitrary list here. -/
def runRequests (env : HwEnv) (reqs : List Request) (st : DaemonState) :
    List Response × DaemonState :=
  match reqs with
  | [] => ([], st)
  | r :: rs =>
    let out := process_request env r st
    let rest := runRequests env rs out.2
    (out.1 :: rest.1, rest.2)

/-- The list of `SetManual` requests for a list of (fan id, duty) pairs. -/
def setManualBatch (pairs : List (String × ℕ)) : List Request :=
  pairs.map (fun p => Request.setManual p.1 p.2)

/-! ### NaN-aware model of `FanCurve::new`

Rust `f64` has NaN, for which `partial_cmp` returns `None`; the comparator
passed to `sort_by` in `FanCurve::new` calls `.unwrap()` on that result, so a
comparator call on a NaN temperature panics.  Here an `f64` temperature is
`Option ℚ` with `none` standing for NaN, the sort is a stable merge sort in
the `Option` monad, and a panic is `none` for the whole construction. -/

/-- A curve point whose `f64` temperature may be NaN (`none`). -/
structure CurvePointF where
  temp_c : Option ℚ
  pwm : ℕ
deriving DecidableEq

/-- `f64::partial_cmp`: `none` iff either operand is NaN, otherwise the
order of the two values. -/
def cmpTemp (a b : Option ℚ) : Option Ordering :=
  match a, b with
  | some x, some y =>
    some (if x < y then Ordering.lt else if x = y then Ordering.eq else Ordering.gt)
  | _, _ => none

/-- The comparator of `FanCurve::new`:
`a.temp_c.partial_cmp(&b.temp_c).unwrap()`, with the panic of `unwrap`
modelled as `none`. -/
def cmpPointF (a b : CurvePointF) : Option Ordering := cmpTemp a.temp_c b.temp_c

/-- Stable merge of two lists under a fallible comparator; `none` as soon as
one comparator call panics.  The left element is kept first unless the
comparator says it is greater. -/
def mergeByM {α : Type} (cmp : α → α → Option Ordering) :
    List α → List α → Option (List α)
  | [], ys => some ys
  | x :: xs, [] => some (x :: xs)
  | x :: xs, y :: ys =>
    match cmp x y with
    | none => none
    | some o =>
      if o = Ordering.gt then (mergeByM cmp (x :: xs) ys).map (fun l => y :: l)
      else (mergeByM cmp xs (y :: ys)).map (fun l => x :: l)
termination_by xs ys => xs.length + ys.length

/-- Stable merge sort under a fallible comparator: the model of
`slice::sort_by` with a comparator that may panic.  A slice of length `< 2`
is returned as is, without calling the comparator — as in Rust. -/
def sortByM {α : Type} (cmp : α → α → Option Ordering) : List α → Option (List α)
  | [] => some []
  | [a] => some [a]
  | a :: b :: rest =>
    match sortByM cmp ((a :: b :: rest).take ((rest.length + 2) / 2)),
          sortByM cmp ((a :: b :: rest).drop ((rest.length + 2) / 2)) with
    | some xs, some ys => mergeByM cmp xs ys
    | _, _ => none
termination_by l => l.length
decreasing_by
  all_goals
    simp only [List.length_take, List.length_drop, List.length_cons]
    omega

/-- A fan curve over possibly-NaN temperatures. -/
structure FanCurveF where
  name : String
  points : List CurvePointF
deriving DecidableEq

/-- `FanCurve::new` over possibly-NaN points: `none` models the panic of the
sort comparator's `unwrap`. -/
def FanCurveF.new (name : String) (points : List CurvePointF) : Option FanCurveF :=
  (sortByM cmpPointF points).map (fun ps => ⟨name, ps⟩)

/-- Ascending order on possibly-NaN points; only holds between non-NaN
temperatures. -/
def tempLeF (a b : CurvePointF) : Prop :=
  match a.temp_c, b.temp_c with
  | some x, some y => x ≤ y
  | _, _ => False

/-! ### Concrete fixtures used by the witnesses -/

/-- An oracle whose hardware writes all succeed and whose config file fails
to parse. -/
def envFixture : HwEnv where
  set_manual_pwm := fun _ _ => Except.ok ()
  set_pwm_enable := fun _ _ => Except.ok ()
  restore_automatic := fun _ => Except.ok ()
  read_all_fan_statuses := fun _ => []
  read_all_temp_statuses := fun _ => []
  load_config := fun _ => Except.error "Failed to parse config: expected value"
  save_config := fun _ _ => Except.ok ()

/-- A concrete fan as discovered from sysfs. -/
def fanFixture (i : String) : Fan :=
  ⟨i, none, "/sys/class/hwmon/hwmon3/pwm1", "/sys/class/hwmon/hwmon3/pwm1_enable",
    none, "nct6775"⟩

/-- A concrete daemon state with two fans, no sensors, and the default-style
curve list. -/
def stFixture : DaemonState where
  config :=
    { daemon := ⟨2000, "/run/fanctl.sock", true⟩
      curves := [default_silent_curve]
      fans := [] }
  fans := [fanFixture "hwmon3/pwm1", fanFixture "hwmon3/pwm2"]
  sensors := []
  config_path := "/etc/fanctl/config.toml"

/-! ### Theorems -/

/-- Helper: in a temperature-strictly-increasing point list with at least two
points, the head's temperature is strictly below the last point's. -/
theorem head_temp_lt_getLast_temp (p : CurvePoint) (ps : List CurvePoint) (h : ps ≠ [])
    (hc : List.Chain' (fun a b : CurvePoint => a.temp_c < b.temp_c) (p :: ps)) :
    p.temp_c < ((p :: ps).getLast (List.cons_ne_nil p ps)).temp_c := by
  induction ps generalizing p with
  | nil => exact absurd rfl h
  | cons q rest ih =>
    rw [List.chain'_cons] at hc
    rw [List.getLast_cons (List.cons_ne_nil q rest)]
    cases rest with
    | nil => simpa [List.getLast] using hc.1
    | cons r rest' =>
      exact hc.1.trans (by simpa [List.getLast_cons] using ih q (by simp) hc.2)

/-- **C1.** Boundary behaviour of the Curve Engine: `interpolate` returns 0 on
an empty point set; the first point's duty on a single-point curve or when the
temperature is at or below the first point's; and, on a curve satisfying the
strictly-increasing-temperature invariant, the last point's duty when the
temperature is at or above the last point's — exactly the boundary duty, never
an extrapolation.  In particular the silent curve gives 0 at 10 °C and 255 at
100 °C. -/
theorem interpolate_boundary (c : FanCurve) (t : ℚ) :
    (c.points = [] → c.interpolate t = 0) ∧
    (∀ p, c.points = [p] → c.interpolate t = p.pwm) ∧
    (∀ p ps, c.points = p :: ps → t ≤ p.temp_c → c.interpolate t = p.pwm) ∧
    (List.Chain' (fun a b : CurvePoint => a.temp_c < b.temp_c) c.points →
      ∀ h : c.points ≠ [], (c.points.getLast h).temp_c ≤ t →
        c.interpolate t = (c.points.getLast h).pwm) ∧
    default_silent_curve.interpolate 10 = 0 ∧
    default_silent_curve.interpolate 100 = 255 := by
  refine ⟨?_, ?_, ?_, ?_, ?_, ?_⟩
  · intro h; simp [FanCurve.interpolate, h]
  · intro p h; simp [FanCurve.interpolate, h]
  · intro p ps h ht; simp [FanCurve.interpolate, h, ht]
  · intro hc h hlast
    obtain ⟨nm, pts⟩ := c
    cases pts with
    | nil => exact absurd rfl h
    | cons p ps =>
      cases ps with
      | nil => simp [FanCurve.interpolate, List.getLast_singleton]
      | cons q rest =>
        have hlt : p.temp_c < ((q :: rest).getLast (List.cons_ne_nil q rest)).temp_c := by
          have h2 := head_temp_lt_getLast_temp p (q :: rest) (List.cons_ne_nil q rest) hc
          rwa [List.getLast_cons (List.cons_ne_nil q rest)] at h2
        have hlast' : ((q :: rest).getLast (List.cons_ne_nil q rest)).temp_c ≤ t := by
          have h3 := hlast
          rwa [List.getLast_cons (List.cons_ne_nil q rest)] at h3
        have hnt : ¬ t ≤ p.temp_c := fun hle =>
          absurd hlt (not_lt.2 (hlast'.trans hle))
        rw [List.getLast_cons (List.cons_ne_nil q rest)]
        simp [FanCurve.interpolate, hnt, hlast', List.getLast_cons]
  · norm_num [default_silent_curve, FanCurve.new, sortPoints, List.mergeSort,
      FanCurve.interpolate, List.cons_ne_nil]
  · norm_num [default_silent_curve, FanCurve.new, sortPoints, List.mergeSort,
      FanCurve.interpolate, List.getLast, List.cons_ne_nil]

/-- Witness for C1: concrete instantiation at the silent curve and 120 °C,
discharging the invariant hypotheses; the result is the last point's duty. -/
theorem interpolate_boundary_witness : default_silent_curve.interpolate 120 = 255 := by
  have h := (interpolate_boundary default_silent_curve 120).2.2.2.1
    (by norm_num [default_silent_curve, FanCurve.new, sortPoints, List.mergeSort,
      List.merge, List.chain'_cons])
    (by
      norm_num [default_silent_curve, FanCurve.new, sortPoints, List.mergeSort, List.merge]
      exact List.cons_ne_nil _ _)
    (by norm_num [default_silent_curve, FanCurve.new, sortPoints, List.mergeSort,
      List.merge, List.getLast])
  rw [h]
  norm_num [default_silent_curve, FanCurve.new, sortPoints, List.mergeSort,
    List.merge, List.getLast]

/-- Helper: the per-point loop of `validate` succeeds exactly when the
temperatures from the predecessor on are strictly increasing. -/
theorem checkIncreasing_ok_iff (p : CurvePoint) (i : ℕ) (l : List CurvePoint) :
    checkIncreasing p i l = Except.ok () ↔
      List.Chain' (fun a b : CurvePoint => a.temp_c < b.temp_c) (p :: l) := by
  induction l generalizing p i with
  | nil => simp [checkIncreasing]
  | cons q rest ih =>
    by_cases hq : q.temp_c ≤ p.temp_c
    · simp [checkIncreasing, hq, List.chain'_cons, not_lt.2 hq]
    · simp [checkIncreasing, hq, List.chain'_cons, not_le.1 hq, ih]

/-- Helper: an `Except String Unit` is `ok ()` or some error. -/
theorem except_ok_or_error (r : Except String Unit) :
    r = Except.ok () ∨ ∃ e, r = Except.error e := by
  cases r with
  | ok u => cases u; exact Or.inl rfl
  | error e => exact Or.inr ⟨e, rfl⟩

/-- Helper: on a curve with at least two stored points, `validate` is exactly
the strictly-increasing loop. -/
theorem validate_cons2 (nm : String) (p q : CurvePoint) (rest : List CurvePoint) :
    (⟨nm, p :: q :: rest⟩ : FanCurve).validate = checkIncreasing p 1 (q :: rest) := by
  have h : ¬ (p :: q :: rest : List CurvePoint).length < 2 := by simp
  simp [FanCurve.validate, h]

/-- Counterexample to **C6** as stated: the curve storing points
[(50,0),(30,0)] has at least two points, and taken in ascending sorted order
its temperatures are strictly increasing, so the claim predicts `validate`
succeeds; the code checks the stored order and fails with the monotonicity
error for point 1. -/
theorem validate_sorted_iff_counterexample :
    (⟨"bad", [⟨50, 0⟩, ⟨30, 0⟩]⟩ : FanCurve).validate = Except.error (monoMsg 1) ∧
    sortPoints [⟨50, 0⟩, ⟨30, 0⟩] = [⟨30, 0⟩, ⟨50, 0⟩] ∧
    ((30 : ℚ) < 50) := by
  refine ⟨?_, ?_, by norm_num⟩
  · norm_num [FanCurve.validate, checkIncreasing]
  · norm_num [sortPoints, List.mergeSort]

/-- **C6 (amended).** `validate` fails iff the curve has fewer than 2 points
or its temperatures, in the *stored* point order, are not strictly
increasing; every curve with at least 2 points and strictly increasing stored
temperatures validates successfully. -/
theorem validate_iff (c : FanCurve) :
    ((∃ e, c.validate = Except.error e) ↔
      c.points.length < 2 ∨
        ¬ List.Chain' (fun a b : CurvePoint => a.temp_c < b.temp_c) c.points) ∧
    (2 ≤ c.points.length →
      List.Chain' (fun a b : CurvePoint => a.temp_c < b.temp_c) c.points →
      c.validate = Except.ok ()) := by
  obtain ⟨nm, pts⟩ := c
  have main : (∃ e, FanCurve.validate ⟨nm, pts⟩ = Except.error e) ↔
      pts.length < 2 ∨
        ¬ List.Chain' (fun a b : CurvePoint => a.temp_c < b.temp_c) pts := by
    match pts with
    | [] => simp [FanCurve.validate]
    | [p] => simp [FanCurve.validate]
    | p :: q :: rest =>
      rw [validate_cons2]
      have hlen : ¬ (p :: q :: rest : List CurvePoint).length < 2 := by simp
      simp only [hlen, false_or]
      constructor
      · rintro ⟨e, he⟩ hchain
        rw [(checkIncreasing_ok_iff p 1 (q :: rest)).2 hchain] at he
        exact Except.noConfusion he
      · intro hnc
        rcases except_ok_or_error (checkIncreasing p 1 (q :: rest)) with hok | herr
        · exact absurd ((checkIncreasing_ok_iff p 1 (q :: rest)).1 hok) hnc
        · exact herr
  refine ⟨main, fun h2 hchain => ?_⟩
  rcases except_ok_or_error (FanCurve.validate ⟨nm, pts⟩) with hok | ⟨e, he⟩
  · exact hok
  · rcases main.1 ⟨e, he⟩ with hlt | hnc
    · exact absurd hlt (not_lt.2 (by simpa using h2))
    · exact absurd hchain hnc

/-- Witness for C6: a concrete two-point strictly increasing curve
validates successfully. -/
theorem validate_iff_witness :
    (⟨"ok2", [⟨30, 0⟩, ⟨50, 64⟩]⟩ : FanCurve).validate = Except.ok () :=
  (validate_iff ⟨"ok2", [⟨30, 0⟩, ⟨50, 64⟩]⟩).2 (by norm_num)
    (by norm_num [List.chain'_cons])

/-- Helper: the `validate` loop returns `ok` or a monotonicity-check error. -/
theorem checkIncreasing_ok_or_mono (p : CurvePoint) (i : ℕ) (l : List CurvePoint) :
    checkIncreasing p i l = Except.ok () ∨
      ∃ j, checkIncreasing p i l = Except.error (monoMsg j) := by
  induction l generalizing p i with
  | nil => exact Or.inl rfl
  | cons q rest ih =>
    by_cases hq : q.temp_c ≤ p.temp_c
    · exact Or.inr ⟨i, by simp [checkIncreasing, hq]⟩
    · simpa [checkIncreasing, hq] using ih q (i + 1)

/-- Counterexample to **C7** as stated: `FanCurve::new` does not add points,
so constructing from the empty list yields a curve on which `validate` fails
the fewer-than-2-points check, not the monotonicity check. -/
theorem new_validate_size_counterexample :
    (FanCurve.new "x" ([] : List CurvePoint)).validate = Except.error sizeMsg ∧
    (FanCurve.new "x" ([] : List CurvePoint)).points.length < 2 ∧
    sizeMsg ≠ monoMsg 0 := by
  refine ⟨?_, ?_, by decide⟩
  · norm_num [FanCurve.new, sortPoints, FanCurve.validate, List.mergeSort]
  · norm_num [FanCurve.new, sortPoints, List.mergeSort]

/-- **C7 (amended).** For every curve built by `FanCurve::new` from at least
two points, if `validate` fails then it fails the
strictly-increasing-temperature check (its error is a monotonicity message);
in particular the fewer-than-2-points check cannot fail, since construction
preserves the number of points and sorts them. -/
theorem new_validate_only_mono (name : String) (points : List CurvePoint)
    (h2 : 2 ≤ points.length) :
    (FanCurve.new name points).validate = Except.ok () ∨
      ∃ i, (FanCurve.new name points).validate = Except.error (monoMsg i) := by
  have hlen : (sortPoints points).length = points.length :=
    (List.mergeSort_perm points _).length_eq
  have hnew : FanCurve.new name points = ⟨name, sortPoints points⟩ := rfl
  rw [hnew]
  match hsp : sortPoints points with
  | [] => rw [hsp] at hlen; simp at hlen; omega
  | [p] => rw [hsp] at hlen; simp at hlen; omega
  | p :: q :: rest =>
    rw [validate_cons2]
    exact checkIncreasing_ok_or_mono p 1 (q :: rest)

/-- Witness for C7: a concrete constructed curve with a temperature tie
fails with the monotonicity message, never the size message. -/
theorem new_validate_only_mono_witness :
    (FanCurve.new "w" [⟨30, 0⟩, ⟨30, 1⟩]).validate = Except.ok () ∨
      ∃ i, (FanCurve.new "w" [⟨30, 0⟩, ⟨30, 1⟩]).validate = Except.error (monoMsg i) :=
  new_validate_only_mono "w" [⟨30, 0⟩, ⟨30, 1⟩] (by norm_num)

/-- Helper: on a point list sorted ascending (weakly) by temperature, a
temperature strictly inside the first and last points' temperatures makes the
window scan stop at a bracketing adjacent pair. -/
theorem scanWindows_bracket (t : ℚ) (p : CurvePoint) (ps : List CurvePoint)
    (hc : List.Chain' (fun a b : CurvePoint => a.temp_c ≤ b.temp_c) (p :: ps))
    (hlo : p.temp_c < t) (hne : ps ≠ [])
    (hhi : t < ((p :: ps).getLast (List.cons_ne_nil p ps)).temp_c) :
    ∃ i lo hi, (p :: ps)[i]? = some lo ∧ (p :: ps)[i + 1]? = some hi ∧
      lo.temp_c ≤ t ∧ t ≤ hi.temp_c ∧
      scanWindows t (p :: ps) = some (interpOne lo hi t) := by
  induction ps generalizing p with
  | nil => exact absurd rfl hne
  | cons q rest ih =>
    rw [List.chain'_cons] at hc
    by_cases hq : t ≤ q.temp_c
    · exact ⟨0, p, q, rfl, by simp, le_of_lt hlo, hq,
        by simp [scanWindows, le_of_lt hlo, hq]⟩
    · cases rest with
      | nil =>
        rw [List.getLast_cons (List.cons_ne_nil q []), List.getLast_singleton] at hhi
        exact absurd (le_of_lt hhi) hq
      | cons r rest' =>
        have hhi' : t < ((q :: r :: rest').getLast (List.cons_ne_nil q (r :: rest'))).temp_c := by
          rwa [List.getLast_cons (List.cons_ne_nil q (r :: rest'))] at hhi
        obtain ⟨i, lo, hi, h1, h2, h3, h4, h5⟩ :=
          ih q hc.2 (not_le.1 hq) (List.cons_ne_nil r rest') hhi'
        refine ⟨i + 1, lo, hi, by simpa using h1, by simpa using h2, h3, h4, ?_⟩
        simpa [scanWindows, hq] using h5

/-- **C2.** Interior interpolation: on a curve sorted ascending by
temperature, for a temperature strictly between the first and last points',
`interpolate` finds an adjacent bracketing pair `(lo, hi)` with
`lo.temp_c ≤ t ≤ hi.temp_c` and returns the linear interpolation of their
duties, rounded to nearest and clamped to `[0, 255]` — or `lo`'s duty if
the pair's temperatures coincide.  In particular
`interpolate [(0,0),(100,200)] 50 = 100` and the silent curve gives 64 at
50 °C. -/
theorem interpolate_interior (c : FanCurve) (t : ℚ) (hne : c.points ≠ [])
    (hsorted : List.Chain' (fun a b : CurvePoint => a.temp_c ≤ b.temp_c) c.points)
    (hlo : (c.points.head hne).temp_c < t)
    (hhi : t < (c.points.getLast hne).temp_c) :
    (∃ i lo hi, c.points[i]? = some lo ∧ c.points[i + 1]? = some hi ∧
      lo.temp_c ≤ t ∧ t ≤ hi.temp_c ∧
      c.interpolate t = (if hi.temp_c = lo.temp_c then lo.pwm
        else clampU8 (rustRound ((lo.pwm : ℚ) +
          (t - lo.temp_c) / (hi.temp_c - lo.temp_c) * ((hi.pwm : ℚ) - (lo.pwm : ℚ)))))) ∧
    FanCurve.interpolate ⟨"linear", [⟨0, 0⟩, ⟨100, 200⟩]⟩ 50 = 100 ∧
    default_silent_curve.interpolate 50 = 64 := by
  refine ⟨?_, ?_, ?_⟩
  · obtain ⟨nm, pts⟩ := c
    cases pts with
    | nil => exact absurd rfl hne
    | cons p ps =>
      cases ps with
      | nil =>
        rw [List.head_cons] at hlo
        rw [List.getLast_singleton] at hhi
        exact absurd (hlo.trans hhi) (lt_irrefl _)
      | cons q rest =>
        rw [List.head_cons] at hlo
        obtain ⟨i, lo, hi, h1, h2, h3, h4, h5⟩ :=
          scanWindows_bracket t p (q :: rest) hsorted hlo (List.cons_ne_nil q rest) hhi
        refine ⟨i, lo, hi, h1, h2, h3, h4, ?_⟩
        have hnt : ¬ t ≤ p.temp_c := not_le.2 hlo
        have hnl : ¬ ((p :: q :: rest).getLast (List.cons_ne_nil p (q :: rest))).temp_c ≤ t :=
          not_le.2 hhi
        simp only [FanCurve.interpolate, hnt, hnl, List.cons_ne_nil, false_or, if_false,
          or_false, h5, Option.getD_some]
        simp [interpOne, sub_eq_zero, clampU8]
  · norm_num [FanCurve.interpolate, List.getLast, scanWindows, interpOne, rustRound,
      clampU8, List.cons_ne_nil]
    all_goals decide
  · norm_num [default_silent_curve, FanCurve.new, sortPoints, List.mergeSort, List.merge,
      FanCurve.interpolate, List.getLast, scanWindows, interpOne, rustRound, clampU8,
      List.cons_ne_nil]
    all_goals decide

/-- Witness for C2 at the two-point linear curve and 50 °C: the hypotheses
hold concretely and the bracketing-pair description applies. -/
theorem interpolate_interior_witness :
    ∃ i lo hi,
      (FanCurve.interpolate ⟨"linear", [⟨0, 0⟩, ⟨100, 200⟩]⟩ 50 = 100) ∧
      ([⟨0, 0⟩, ⟨100, 200⟩] : List CurvePoint)[i]? = some lo ∧
      ([⟨0, 0⟩, ⟨100, 200⟩] : List CurvePoint)[i + 1]? = some hi ∧
      lo.temp_c ≤ 50 ∧ (50 : ℚ) ≤ hi.temp_c := by
  have h := interpolate_interior ⟨"linear", [⟨0, 0⟩, ⟨100, 200⟩]⟩ 50
    (List.cons_ne_nil _ _)
    (by norm_num [List.chain'_cons])
    (by norm_num [List.head_cons])
    (by norm_num [List.getLast, List.getLast_cons])
  obtain ⟨⟨i, lo, hi, h1, h2, h3, h4, _⟩, h6, _⟩ := h
  exact ⟨i, lo, hi, h6, h1, h2, h3, h4⟩

/-- Helper: rounding a natural number is the identity. -/
theorem rustRound_natCast (n : ℕ) : rustRound (n : ℚ) = n := by
  unfold rustRound
  rw [if_pos (by positivity)]
  have h : ⌊(n : ℚ) + 1/2⌋ = (n : ℤ) := by
    rw [Int.floor_eq_iff]
    constructor
    · push_cast; linarith
    · push_cast; linarith
  rw [h]

/-- Helper: `rustRound` is monotone. -/
theorem rustRound_mono {a b : ℚ} (h : a ≤ b) : rustRound a ≤ rustRound b := by
  unfold rustRound
  by_cases ha : 0 ≤ a
  · rw [if_pos ha, if_pos (ha.trans h)]
    exact Int.floor_le_floor (by linarith)
  · rw [if_neg ha]
    by_cases hb : 0 ≤ b
    · rw [if_pos hb]
      have h1 : 0 ≤ ⌊-a + 1/2⌋ := Int.floor_nonneg.2 (by push_neg at ha; linarith)
      have h2 : 0 ≤ ⌊b + 1/2⌋ := Int.floor_nonneg.2 (by linarith)
      omega
    · rw [if_neg hb]
      have h3 : ⌊-b + 1/2⌋ ≤ ⌊-a + 1/2⌋ := Int.floor_le_floor (by linarith)
      omega

/-- Helper: `clampU8` is monotone. -/
theorem clampU8_mono {a b : ℤ} (h : a ≤ b) : clampU8 a ≤ clampU8 b := by
  unfold clampU8
  omega

/-- Helper: `clampU8` never exceeds 255. -/
theorem clampU8_le_255 (z : ℤ) : clampU8 z ≤ 255 := by
  unfold clampU8
  omega

/-- Helper: round-then-clamp is the identity on in-range duty values. -/
theorem roundClamp_natCast (n : ℕ) (h : n ≤ 255) : clampU8 (rustRound (n : ℚ)) = n := by
  rw [rustRound_natCast]
  unfold clampU8
  omega

/-- Helper: `lerpQ` is monotone in the temperature when the window is
ascending in temperature and duty. -/
theorem lerpQ_mono (lo hi : CurvePoint) {t₁ t₂ : ℚ} (hT : lo.temp_c < hi.temp_c)
    (hP : lo.pwm ≤ hi.pwm) (h : t₁ ≤ t₂) : lerpQ lo hi t₁ ≤ lerpQ lo hi t₂ := by
  have hR : (0 : ℚ) < hi.temp_c - lo.temp_c := by linarith
  have hD : (0 : ℚ) ≤ (hi.pwm : ℚ) - (lo.pwm : ℚ) := by
    have := (Nat.cast_le (α := ℚ)).2 hP
    linarith
  unfold lerpQ
  rw [if_neg (by linarith), if_neg (by linarith)]
  have hfrac : (t₁ - lo.temp_c) / (hi.temp_c - lo.temp_c) ≤
      (t₂ - lo.temp_c) / (hi.temp_c - lo.temp_c) :=
    (div_le_div_iff_of_pos_right hR).2 (by linarith)
  nlinarith [hfrac, hD]

/-- Helper: within the window, `lerpQ` is at least the low duty. -/
theorem lerpQ_ge_lo (lo hi : CurvePoint) {t : ℚ} (hT : lo.temp_c < hi.temp_c)
    (hP : lo.pwm ≤ hi.pwm) (ht : lo.temp_c ≤ t) : (lo.pwm : ℚ) ≤ lerpQ lo hi t := by
  have hR : (0 : ℚ) < hi.temp_c - lo.temp_c := by linarith
  have hD : (0 : ℚ) ≤ (hi.pwm : ℚ) - (lo.pwm : ℚ) := by
    have := (Nat.cast_le (α := ℚ)).2 hP
    linarith
  unfold lerpQ
  rw [if_neg (by linarith)]
  have hfrac : 0 ≤ (t - lo.temp_c) / (hi.temp_c - lo.temp_c) :=
    div_nonneg (by linarith) (by linarith)
  nlinarith

/-- Helper: within the window, `lerpQ` is at most the high duty. -/
theorem lerpQ_le_hi (lo hi : CurvePoint) {t : ℚ} (hT : lo.temp_c < hi.temp_c)
    (hP : lo.pwm ≤ hi.pwm) (ht : t ≤ hi.temp_c) : lerpQ lo hi t ≤ (hi.pwm : ℚ) := by
  have hR : (0 : ℚ) < hi.temp_c - lo.temp_c := by linarith
  have hD : (0 : ℚ) ≤ (hi.pwm : ℚ) - (lo.pwm : ℚ) := by
    have := (Nat.cast_le (α := ℚ)).2 hP
    linarith
  unfold lerpQ
  rw [if_neg (by linarith)]
  have hfrac : (t - lo.temp_c) / (hi.temp_c - lo.temp_c) ≤ 1 := by
    rw [div_le_one hR]; linarith
  nlinarith

/-- Helper: at the window's high temperature, `lerpQ` hits the high duty
exactly. -/
theorem lerpQ_at_hi (lo hi : CurvePoint) (hT : lo.temp_c < hi.temp_c) :
    lerpQ lo hi hi.temp_c = (hi.pwm : ℚ) := by
  have hR : hi.temp_c - lo.temp_c ≠ 0 := by linarith
  unfold lerpQ
  rw [if_neg hR]
  field_simp

/-- Helper: the exact curve value is below by the head's duty on a curve with
strictly increasing temperatures and non-decreasing duties. -/
theorem curveValQ_ge_head (p : CurvePoint) (ps : List CurvePoint) (t : ℚ)
    (hT : List.Chain' (fun a b : CurvePoint => a.temp_c < b.temp_c) (p :: ps))
    (hP : List.Chain' (fun a b : CurvePoint => a.pwm ≤ b.pwm) (p :: ps)) :
    (p.pwm : ℚ) ≤ curveValQ (p :: ps) t := by
  induction ps generalizing p with
  | nil => simp [curveValQ]
  | cons q rest ih =>
    rw [List.chain'_cons] at hT hP
    by_cases h1 : t ≤ p.temp_c
    · simp [curveValQ, h1]
    · by_cases h2 : t ≤ q.temp_c
      · simp only [curveValQ, h1, if_false, h2, if_true]
        exact lerpQ_ge_lo p q hT.1 hP.1 (le_of_lt (not_le.1 h1))
      · simp only [curveValQ, h1, if_false, h2]
        calc (p.pwm : ℚ) ≤ (q.pwm : ℚ) := by exact_mod_cast hP.1
          _ ≤ curveValQ (q :: rest) t := ih q hT.2 hP.2

/-- Helper: at or below the first point's temperature the exact curve value is
the first duty. -/
theorem curveValQ_le_first (p : CurvePoint) (ps : List CurvePoint) (t : ℚ)
    (h : t ≤ p.temp_c) : curveValQ (p :: ps) t = (p.pwm : ℚ) := by
  cases ps with
  | nil => simp [curveValQ]
  | cons q rest => simp [curveValQ, h]

/-- Helper: definitional unfolding of `curveValQ` on a two-or-more point
list. -/
theorem curveValQ_cons_cons (p q : CurvePoint) (rest : List CurvePoint) (t : ℚ) :
    curveValQ (p :: q :: rest) t =
      if t ≤ p.temp_c then (p.pwm : ℚ)
      else if t ≤ q.temp_c then lerpQ p q t
      else curveValQ (q :: rest) t := rfl

/-- Helper: at or above the last point's temperature the exact curve value is
the last duty, on a curve with strictly increasing temperatures. -/
theorem curveValQ_last (p : CurvePoint) (ps : List CurvePoint) (t : ℚ)
    (hT : List.Chain' (fun a b : CurvePoint => a.temp_c < b.temp_c) (p :: ps))
    (hlast : ((p :: ps).getLast (List.cons_ne_nil p ps)).temp_c ≤ t) :
    curveValQ (p :: ps) t = (((p :: ps).getLast (List.cons_ne_nil p ps)).pwm : ℚ) := by
  induction ps generalizing p with
  | nil => simp [curveValQ, List.getLast_singleton]
  | cons q rest ih =>
    rw [List.getLast_cons (List.cons_ne_nil q rest)] at hlast ⊢
    have hT' := hT
    rw [List.chain'_cons] at hT'
    have hql : q.temp_c ≤ ((q :: rest).getLast (List.cons_ne_nil q rest)).temp_c := by
      cases rest with
      | nil => simp [List.getLast_singleton]
      | cons r rest' =>
        exact le_of_lt (head_temp_lt_getLast_temp q (r :: rest')
          (List.cons_ne_nil r rest') hT'.2)
    have h1 : ¬ t ≤ p.temp_c := by
      have := hT'.1
      push_neg
      calc p.temp_c < q.temp_c := this
        _ ≤ _ := hql
        _ ≤ t := hlast
    rw [curveValQ_cons_cons, if_neg h1]
    cases rest with
    | nil =>
      rw [List.getLast_singleton] at hlast ⊢
      by_cases h2 : t ≤ q.temp_c
      · have ht : t = q.temp_c := le_antisymm h2 hlast
        subst ht
        rw [if_pos le_rfl]
        exact lerpQ_at_hi p q hT'.1
      · rw [if_neg h2]
        simp [curveValQ]
    | cons r rest' =>
      have h2 : ¬ t ≤ q.temp_c := by
        push_neg
        calc q.temp_c < ((q :: r :: rest').getLast (List.cons_ne_nil q (r :: rest'))).temp_c :=
              head_temp_lt_getLast_temp q (r :: rest') (List.cons_ne_nil r rest') hT'.2
          _ ≤ t := hlast
      rw [if_neg h2]
      exact ih q hT'.2 hlast

/-- Helper: the exact curve value is monotone in the temperature on a curve
with strictly increasing temperatures and non-decreasing duties. -/
theorem curveValQ_mono (l : List CurvePoint)
    (hT : List.Chain' (fun a b : CurvePoint => a.temp_c < b.temp_c) l)
    (hP : List.Chain' (fun a b : CurvePoint => a.pwm ≤ b.pwm) l)
    {t₁ t₂ : ℚ} (h : t₁ ≤ t₂) : curveValQ l t₁ ≤ curveValQ l t₂ := by
  induction l with
  | nil => simp [curveValQ]
  | cons p ps ih =>
    cases ps with
    | nil => simp [curveValQ]
    | cons q rest =>
      have hT' := hT
      have hP' := hP
      rw [List.chain'_cons] at hT' hP'
      by_cases h1 : t₁ ≤ p.temp_c
      · rw [curveValQ_le_first p (q :: rest) t₁ h1]
        exact curveValQ_ge_head p (q :: rest) t₂ hT hP
      · by_cases h2 : t₁ ≤ q.temp_c
        · have h1' : ¬ t₂ ≤ p.temp_c := by push_neg at h1 ⊢; linarith
          rw [curveValQ_cons_cons p q rest t₁, if_neg h1, if_pos h2,
            curveValQ_cons_cons p q rest t₂, if_neg h1']
          by_cases h2' : t₂ ≤ q.temp_c
          · rw [if_pos h2']
            exact lerpQ_mono p q hT'.1 hP'.1 h
          · rw [if_neg h2']
            calc lerpQ p q t₁ ≤ (q.pwm : ℚ) := lerpQ_le_hi p q hT'.1 hP'.1 h2
              _ ≤ curveValQ (q :: rest) t₂ := curveValQ_ge_head q rest t₂ hT'.2 hP'.2
        · have h1' : ¬ t₂ ≤ p.temp_c := by push_neg at h1 ⊢; linarith
          have h2' : ¬ t₂ ≤ q.temp_c := by push_neg at h2 ⊢; linarith
          rw [curveValQ_cons_cons p q rest t₁, if_neg h1, if_neg h2,
            curveValQ_cons_cons p q rest t₂, if_neg h1', if_neg h2']
          exact ih hT'.2 hP'.2

/-- Helper: definitional unfolding of the window scan on a two-or-more point
list. -/
theorem scanWindows_cons_cons (t : ℚ) (lo hi : CurvePoint) (rest : List CurvePoint) :
    scanWindows t (lo :: hi :: rest) =
      if lo.temp_c ≤ t ∧ t ≤ hi.temp_c then some (interpOne lo hi t)
      else scanWindows t (hi :: rest) := rfl

/-- Helper: strictly inside the curve, the window scan returns exactly the
rounded and clamped exact curve value. -/
theorem scanWindows_eq_roundClamp (t : ℚ) (p : CurvePoint) (ps : List CurvePoint)
    (hT : List.Chain' (fun a b : CurvePoint => a.temp_c < b.temp_c) (p :: ps))
    (hlo : p.temp_c < t) (hne : ps ≠ [])
    (hhi : t < ((p :: ps).getLast (List.cons_ne_nil p ps)).temp_c) :
    scanWindows t (p :: ps) = some (clampU8 (rustRound (curveValQ (p :: ps) t))) := by
  induction ps generalizing p with
  | nil => exact absurd rfl hne
  | cons q rest ih =>
    have hT' := hT
    rw [List.chain'_cons] at hT'
    by_cases hq : t ≤ q.temp_c
    · rw [scanWindows_cons_cons, if_pos ⟨le_of_lt hlo, hq⟩,
        curveValQ_cons_cons, if_neg (not_le.2 hlo), if_pos hq]
      have hR : ¬ (q.temp_c - p.temp_c = 0) := by
        have := hT'.1
        intro h0
        rw [sub_eq_zero] at h0
        exact absurd h0.symm (ne_of_lt this)
      simp only [interpOne, lerpQ, if_neg hR]
    · cases rest with
      | nil =>
        rw [List.getLast_cons (List.cons_ne_nil q []), List.getLast_singleton] at hhi
        exact absurd (le_of_lt hhi) hq
      | cons r rest' =>
        have hhi' : t < ((q :: r :: rest').getLast (List.cons_ne_nil q (r :: rest'))).temp_c := by
          rwa [List.getLast_cons (List.cons_ne_nil q (r :: rest'))] at hhi
        rw [scanWindows_cons_cons, if_neg (fun hand => hq hand.2),
          curveValQ_cons_cons, if_neg (not_le.2 hlo), if_neg hq]
        exact ih q hT'.2 (not_le.1 hq) (List.cons_ne_nil r rest') hhi'

/-- Helper: unfolding of `interpolate` on a two-or-more point curve. -/
theorem interpolate_cons_cons (nm : String) (p q : CurvePoint) (rest : List CurvePoint)
    (t : ℚ) :
    FanCurve.interpolate ⟨nm, p :: q :: rest⟩ t =
      if t ≤ p.temp_c then p.pwm
      else if ((p :: q :: rest).getLast (List.cons_ne_nil p (q :: rest))).temp_c ≤ t then
        ((p :: q :: rest).getLast (List.cons_ne_nil p (q :: rest))).pwm
      else (scanWindows t (p :: q :: rest)).getD
        ((p :: q :: rest).getLast (List.cons_ne_nil p (q :: rest))).pwm := by
  by_cases hb : t ≤ p.temp_c
  · simp [FanCurve.interpolate, hb]
  · simp [FanCurve.interpolate, hb]

/-- Helper: on a curve satisfying the invariants (strictly increasing
temperatures, `u8`-range duties, at least two points), `interpolate` is the
composition of clamping, rounding and the exact piecewise-linear value. -/
theorem interpolate_eq_roundClamp (nm : String) (l : List CurvePoint)
    (hT : List.Chain' (fun a b : CurvePoint => a.temp_c < b.temp_c) l)
    (h255 : ∀ p ∈ l, p.pwm ≤ 255) (h2 : 2 ≤ l.length) (t : ℚ) :
    FanCurve.interpolate ⟨nm, l⟩ t = clampU8 (rustRound (curveValQ l t)) := by
  cases l with
  | nil => simp at h2
  | cons p ps =>
    cases ps with
    | nil => simp at h2
    | cons q rest =>
      rw [interpolate_cons_cons]
      by_cases hb1 : t ≤ p.temp_c
      · rw [if_pos hb1, curveValQ_le_first p (q :: rest) t hb1,
          roundClamp_natCast p.pwm (h255 p (List.mem_cons_self p _))]
      · rw [if_neg hb1]
        by_cases hb2 :
            ((p :: q :: rest).getLast (List.cons_ne_nil p (q :: rest))).temp_c ≤ t
        · rw [if_pos hb2, curveValQ_last p (q :: rest) t hT hb2,
            roundClamp_natCast _ (h255 _ (List.getLast_mem _))]
        · rw [if_neg hb2,
            scanWindows_eq_roundClamp t p (q :: rest) hT (not_le.1 hb1)
              (List.cons_ne_nil q rest) (not_le.1 hb2),
            Option.getD_some]

/-- Helper: any value produced by the window scan on a curve with `u8`-range
duties is at most 255. -/
theorem scanWindows_le_255 (t : ℚ) (l : List CurvePoint)
    (h255 : ∀ p ∈ l, p.pwm ≤ 255) {v : ℕ} (hv : scanWindows t l = some v) : v ≤ 255 := by
  induction l with
  | nil => simp [scanWindows] at hv
  | cons p ps ih =>
    cases ps with
    | nil => simp [scanWindows] at hv
    | cons q rest =>
      rw [scanWindows_cons_cons] at hv
      by_cases hg : p.temp_c ≤ t ∧ t ≤ q.temp_c
      · rw [if_pos hg, Option.some.injEq] at hv
        subst hv
        unfold interpOne
        by_cases hR : q.temp_c - p.temp_c = 0
        · simpa [hR] using h255 p (List.mem_cons_self p _)
        · simpa [hR] using clampU8_le_255 _
      · rw [if_neg hg] at hv
        exact ih (fun r hr => h255 r (List.mem_cons_of_mem p hr)) hv

/-- **C5.** On every curve with at least two points, strictly increasing
temperatures and non-decreasing duties (duties being `u8` values, at most
255), `interpolate` is monotone non-decreasing in the temperature; and on
every curve with `u8`-range duties the returned duty lies in `[0, 255]`
(the lower bound holds by the return type). -/
theorem interpolate_mono_and_range (c : FanCurve) :
    ((∀ p ∈ c.points, p.pwm ≤ 255) →
      List.Chain' (fun a b : CurvePoint => a.temp_c < b.temp_c) c.points →
      List.Chain' (fun a b : CurvePoint => a.pwm ≤ b.pwm) c.points →
      2 ≤ c.points.length →
      ∀ t₁ t₂ : ℚ, t₁ ≤ t₂ → c.interpolate t₁ ≤ c.interpolate t₂) ∧
    ((∀ p ∈ c.points, p.pwm ≤ 255) → ∀ t : ℚ, c.interpolate t ≤ 255) := by
  obtain ⟨nm, l⟩ := c
  constructor
  · intro h255 hT hP h2 t₁ t₂ h
    rw [interpolate_eq_roundClamp nm l hT h255 h2 t₁,
      interpolate_eq_roundClamp nm l hT h255 h2 t₂]
    exact clampU8_mono (rustRound_mono (curveValQ_mono l hT hP h))
  · intro h255 t
    cases l with
    | nil => simp [FanCurve.interpolate]
    | cons p ps =>
      cases ps with
      | nil =>
        simpa [FanCurve.interpolate] using h255 p (List.mem_cons_self p _)
      | cons q rest =>
        rw [interpolate_cons_cons]
        by_cases hb1 : t ≤ p.temp_c
        · rw [if_pos hb1]
          exact h255 p (List.mem_cons_self p _)
        · rw [if_neg hb1]
          by_cases hb2 :
              ((p :: q :: rest).getLast (List.cons_ne_nil p (q :: rest))).temp_c ≤ t
          · rw [if_pos hb2]
            exact h255 _ (List.getLast_mem _)
          · rw [if_neg hb2]
            cases hscan : scanWindows t (p :: q :: rest) with
            | none =>
              rw [Option.getD_none]
              exact h255 ((p :: q :: rest).getLast (List.cons_ne_nil p (q :: rest)))
                (List.getLast_mem (List.cons_ne_nil p (q :: rest)))
            | some v =>
              rw [Option.getD_some]
              exact scanWindows_le_255 t (p :: q :: rest) h255 hscan

/-- Witness for C5 at the silent curve: monotone between 40 °C and 60 °C,
and within range at 1000 °C. -/
theorem interpolate_mono_and_range_witness :
    default_silent_curve.interpolate 40 ≤ default_silent_curve.interpolate 60 ∧
    default_silent_curve.interpolate 1000 ≤ 255 := by
  constructor
  · exact (interpolate_mono_and_range default_silent_curve).1
      (by norm_num [default_silent_curve, FanCurve.new, sortPoints, List.mergeSort,
        List.merge, List.forall_mem_cons])
      (by norm_num [default_silent_curve, FanCurve.new, sortPoints, List.mergeSort,
        List.merge, List.chain'_cons])
      (by norm_num [default_silent_curve, FanCurve.new, sortPoints, List.mergeSort,
        List.merge, List.chain'_cons])
      (by norm_num [default_silent_curve, FanCurve.new, sortPoints, List.mergeSort,
        List.merge])
      40 60 (by norm_num)
  · exact (interpolate_mono_and_range default_silent_curve).2
      (by norm_num [default_silent_curve, FanCurve.new, sortPoints, List.mergeSort,
        List.merge, List.forall_mem_cons])
      1000

/-- Helper: a `retain` (filter) that removes no element leaves the curve list
unchanged. -/
theorem filter_eq_self_of_not_lt (l : List FanCurve) (p : FanCurve → Bool)
    (h : ¬ (l.filter p).length < l.length) : l.filter p = l :=
  List.filter_eq_self.2
    (List.filter_length_eq_length.1
      (le_antisymm (List.length_filter_le p l) (not_lt.1 h)))

/-- **C3.** Atomicity of dispatcher commands on failure: whenever
`process_request` answers with an error response, the in-memory
`Configuration` (curves, fan-assignment table, daemon settings) it leaves in
the shared daemon state equals its value before the request; in particular a
`ReloadConfig` whose backing file fails to parse leaves the configuration
untouched — no partial reload. -/
theorem process_request_error_atomic (env : HwEnv) (req : Request) (st : DaemonState)
    (msg : String) (h : (process_request env req st).1 = Response.error msg) :
    (process_request env req st).2.config = st.config := by
  cases req with
  | getStatus => simp [process_request] at h
  | setManual fan_id pwm =>
    cases hf : st.fans.find? (fun f => f.id == fan_id) with
    | none => simp [process_request, hf]
    | some fan =>
      cases he : env.set_manual_pwm fan pwm with
      | ok u => cases u; simp [process_request, hf, he] at h
      | error e => simp [process_request, hf, he]
  | setCurve fan_id curve_name temp_sensor_id =>
    cases hc : st.config.curves.any (fun c => c.name == curve_name) with
    | false => simp [process_request, hc]
    | true =>
      cases hs : st.sensors.any (fun s => s.id == temp_sensor_id) with
      | false => simp [process_request, hc, hs]
      | true =>
        cases hf : st.fans.find? (fun f => f.id == fan_id) with
        | none => simp [process_request, hc, hs, hf]
        | some fan =>
          cases he : env.set_pwm_enable fan 1 with
          | ok u => cases u; simp [process_request, hc, hs, hf, he] at h
          | error e => simp [process_request, hc, hs, hf, he]
  | setAuto fan_id =>
    cases hf : st.fans.find? (fun f => f.id == fan_id) with
    | none => simp [process_request, hf]
    | some fan =>
      cases he : env.restore_automatic fan with
      | ok u => cases u; simp [process_request, hf, he] at h
      | error e => simp [process_request, hf, he]
  | listCurves => simp [process_request] at h
  | upsertCurve name points =>
    cases hv : (FanCurve.new name points).validate with
    | ok u => cases u; simp [process_request, hv] at h
    | error e => simp [process_request, hv]
  | deleteCurve name =>
    by_cases hlt : (st.config.curves.filter (fun c => !(c.name == name))).length <
        st.config.curves.length
    · simp [process_request, hlt] at h
    · have heq := filter_eq_self_of_not_lt st.config.curves (fun c => !(c.name == name)) hlt
      simp [process_request, hlt, heq]
  | saveConfig =>
    cases he : env.save_config st.config_path st.config with
    | ok u => cases u; simp [process_request, he] at h
    | error e => simp [process_request, he]
  | reloadConfig =>
    cases he : env.load_config st.config_path with
    | ok cfg => simp [process_request, he] at h
    | error e => simp [process_request, he]
  | subscribe => simp [process_request] at h
  | unsubscribe => simp [process_request] at h

/-- Witness for C3: a reload whose backing file fails to parse answers with
an error and leaves the in-memory configuration equal to its pre-reload
value. -/
theorem process_request_error_atomic_witness :
    (process_request envFixture Request.reloadConfig stFixture).2.config =
      stFixture.config :=
  process_request_error_atomic envFixture Request.reloadConfig stFixture
    "Failed to reload config: Failed to parse config: expected value" rfl

/-- **C4.** Fixed validation ordering for `SetCurve`: an unknown curve name
answers `Unknown curve` regardless of the sensor and fan arguments; a known
curve with an unknown sensor answers `Unknown temp sensor` regardless of the
fan argument.  In both cases the state is unchanged. -/
theorem setCurve_validation_order (env : HwEnv) (st : DaemonState)
    (fan_id curve_name temp_sensor_id : String) :
    (st.config.curves.any (fun c => c.name == curve_name) = false →
      process_request env (Request.setCurve fan_id curve_name temp_sensor_id) st =
        (Response.error ("Unknown curve: " ++ curve_name), st)) ∧
    (st.config.curves.any (fun c => c.name == curve_name) = true →
      st.sensors.any (fun s => s.id == temp_sensor_id) = false →
      process_request env (Request.setCurve fan_id curve_name temp_sensor_id) st =
        (Response.error ("Unknown temp sensor: " ++ temp_sensor_id), st)) := by
  constructor
  · intro hc
    simp [process_request, hc]
  · intro hc hs
    simp [process_request, hc, hs]

/-- Witness for C4: with the fixture state (one curve "silent", no sensors,
an invalid fan id), an unknown curve gives the curve error first; a known
curve with an unknown sensor gives the sensor error, though the fan id is
invalid too. -/
theorem setCurve_validation_order_witness :
    process_request envFixture (Request.setCurve "nofan" "nope" "nosensor") stFixture =
      (Response.error ("Unknown curve: " ++ "nope"), stFixture) ∧
    process_request envFixture (Request.setCurve "nofan" "silent" "nosensor") stFixture =
      (Response.error ("Unknown temp sensor: " ++ "nosensor"), stFixture) :=
  ⟨(setCurve_validation_order envFixture stFixture "nofan" "nope" "nosensor").1 rfl,
   (setCurve_validation_order envFixture stFixture "nofan" "silent" "nosensor").2 rfl rfl⟩

/-- Helper: the upserted curve is a member of the updated curve list. -/
theorem mem_upsertCurveList (cs : List FanCurve) (c : FanCurve) :
    c ∈ upsertCurveList cs c := by
  induction cs with
  | nil => simp [upsertCurveList]
  | cons d ds ih =>
    by_cases hd : d.name = c.name
    · simp [upsertCurveList, hd]
    · simp [upsertCurveList, hd, ih]

/-- Helper: when a curve with the same name exists, the upsert replaces the
first such curve in place, preserving the positional name sequence. -/
theorem upsertCurveList_map_name (cs : List FanCurve) (c : FanCurve)
    (h : cs.any (fun d => d.name == c.name) = true) :
    (upsertCurveList cs c).map FanCurve.name = cs.map FanCurve.name := by
  induction cs with
  | nil => simp at h
  | cons d ds ih =>
    by_cases hd : d.name = c.name
    · simp [upsertCurveList, hd]
    · have h' : ds.any (fun d => d.name == c.name) = true := by
        rw [List.any_cons] at h
        simpa [hd] using h
      simp [upsertCurveList, hd, ih h']

/-- Helper: when no curve with the same name exists, the upsert appends. -/
theorem upsertCurveList_append (cs : List FanCurve) (c : FanCurve)
    (h : cs.any (fun d => d.name == c.name) = false) :
    upsertCurveList cs c = cs ++ [c] := by
  induction cs with
  | nil => simp [upsertCurveList]
  | cons d ds ih =>
    rw [List.any_cons, Bool.or_eq_false_iff] at h
    have hd : ¬ d.name = c.name := by simpa using h.1
    simp [upsertCurveList, hd, ih h.2]

/-- Helper: the sort performed by `FanCurve::new` yields points weakly
ascending by temperature. -/
theorem sortPoints_sorted (points : List CurvePoint) :
    List.Chain' (fun a b : CurvePoint => a.temp_c ≤ b.temp_c) (sortPoints points) := by
  have hp := @List.sorted_mergeSort CurvePoint
    (fun a b : CurvePoint => decide (a.temp_c ≤ b.temp_c))
    (fun a b c hab hbc => by
      simp only [decide_eq_true_eq] at hab hbc ⊢
      exact le_trans hab hbc)
    (fun a b => by simp [le_total])
    points
  exact List.Pairwise.chain' (hp.imp (fun h => by simpa using h))

/-- **C8.** `UpsertCurve`/`ListCurves` round trip: for every validating point
list, `UpsertCurve` acks, a subsequent `ListCurves` answers with the stored
curve set, that set contains a curve with the given name whose point sequence
is the input sorted ascending by temperature (a permutation of the input,
weakly sorted), and the update replaces in place when the name existed
(name sequence preserved) or appends otherwise. -/
theorem upsert_listCurves_roundtrip (env : HwEnv) (st : DaemonState)
    (name : String) (points : List CurvePoint)
    (hv : (FanCurve.new name points).validate = Except.ok ()) :
    (process_request env (Request.upsertCurve name points) st).1 =
        Response.ok ("Curve '" ++ name ++ "' saved") ∧
    (process_request env Request.listCurves
        (process_request env (Request.upsertCurve name points) st).2).1 =
      Response.curves
        (process_request env (Request.upsertCurve name points) st).2.config.curves ∧
    (∃ c ∈ (process_request env (Request.upsertCurve name points) st).2.config.curves,
      c.name = name ∧ c.points.Perm points ∧
      List.Chain' (fun a b : CurvePoint => a.temp_c ≤ b.temp_c) c.points) ∧
    (st.config.curves.any (fun d => d.name == name) = true →
      (process_request env (Request.upsertCurve name points) st).2.config.curves.map
          FanCurve.name = st.config.curves.map FanCurve.name) ∧
    (st.config.curves.any (fun d => d.name == name) = false →
      (process_request env (Request.upsertCurve name points) st).2.config.curves =
        st.config.curves ++ [FanCurve.new name points]) := by
  have hstep : process_request env (Request.upsertCurve name points) st =
      (Response.ok ("Curve '" ++ name ++ "' saved"),
       { st with config := { st.config with
          curves := upsertCurveList st.config.curves (FanCurve.new name points) } }) := by
    simp [process_request, hv]
  rw [hstep]
  refine ⟨rfl, by simp [process_request], ?_, ?_, ?_⟩
  · exact ⟨FanCurve.new name points, mem_upsertCurveList _ _, rfl,
      List.mergeSort_perm points _, sortPoints_sorted points⟩
  · intro h
    exact upsertCurveList_map_name st.config.curves (FanCurve.new name points) h
  · intro h
    exact upsertCurveList_append st.config.curves (FanCurve.new name points) h

/-- Witness for C8: upserting a fresh two-point curve into the fixture state
acks and appends the constructed (sorted) curve. -/
theorem upsert_listCurves_roundtrip_witness :
    (process_request envFixture
        (Request.upsertCurve "lin" [⟨0, 0⟩, ⟨100, 200⟩]) stFixture).1 =
      Response.ok ("Curve '" ++ "lin" ++ "' saved") ∧
    (process_request envFixture
        (Request.upsertCurve "lin" [⟨0, 0⟩, ⟨100, 200⟩]) stFixture).2.config.curves =
      stFixture.config.curves ++ [FanCurve.new "lin" [⟨0, 0⟩, ⟨100, 200⟩]] := by
  have h := upsert_listCurves_roundtrip envFixture stFixture "lin" [⟨0, 0⟩, ⟨100, 200⟩]
    (by norm_num [FanCurve.new, sortPoints, FanCurve.validate, List.mergeSort,
      List.merge, checkIncreasing])
  exact ⟨h.1, h.2.2.2.2 rfl⟩

/-- Helper: looking up the inserted key finds the inserted assignment. -/
theorem lookup_insertAssignment_self (m : List (String × FanAssignment))
    (k : String) (v : FanAssignment) :
    List.lookup k (insertAssignment m k v) = some v := by
  induction m with
  | nil => simp [insertAssignment, List.lookup]
  | cons kv rest ih =>
    by_cases hk : kv.1 = k
    · simp [insertAssignment, hk, List.lookup]
    · have hk' : (k == kv.1) = false := by
        simp only [beq_eq_false_iff_ne, ne_eq]
        exact fun he => hk he.symm
      simp [insertAssignment, hk, List.lookup, hk', ih]

/-- Helper: inserting under one key does not disturb lookups of another. -/
theorem lookup_insertAssignment_other (m : List (String × FanAssignment))
    (k k' : String) (v : FanAssignment) (h : k' ≠ k) :
    List.lookup k' (insertAssignment m k v) = List.lookup k' m := by
  have hb : (k' == k) = false := by simpa using h
  induction m with
  | nil => simp [insertAssignment, List.lookup, hb]
  | cons kv rest ih =>
    obtain ⟨k1, v1⟩ := kv
    by_cases hk : k1 = k
    · subst hk
      simp [insertAssignment, List.lookup, hb]
    · simp [insertAssignment, hk, List.lookup, ih]

/-- Helper: one-step unfolding of `runRequests`. -/
theorem runRequests_cons (env : HwEnv) (r : Request) (rs : List Request)
    (st : DaemonState) :
    runRequests env (r :: rs) st =
      ((process_request env r st).1 ::
        (runRequests env rs (process_request env r st).2).1,
       (runRequests env rs (process_request env r st).2).2) := rfl

/-- Helper: a `SetManual` for one fan id never disturbs the assignment of a
different fan id, whether it succeeds or fails. -/
theorem setManual_preserves_other (env : HwEnv) (id : String) (pwm : ℕ)
    (st : DaemonState) (k : String) (h : k ≠ id) :
    List.lookup k (process_request env (Request.setManual id pwm) st).2.config.fans =
      List.lookup k st.config.fans := by
  cases hf : st.fans.find? (fun f => f.id == id) with
  | none => simp [process_request, hf]
  | some fan =>
    cases he : env.set_manual_pwm fan pwm with
    | ok u =>
      cases u
      simp [process_request, hf, he, lookup_insertAssignment_other st.config.fans id k _ h]
    | error e => simp [process_request, hf, he]

/-- Helper: `SetManual` never changes the discovered hardware lists. -/
theorem setManual_preserves_hw (env : HwEnv) (id : String) (pwm : ℕ)
    (st : DaemonState) :
    (process_request env (Request.setManual id pwm) st).2.fans = st.fans := by
  cases hf : st.fans.find? (fun f => f.id == id) with
  | none => simp [process_request, hf]
  | some fan =>
    cases he : env.set_manual_pwm fan pwm with
    | ok u => cases u; simp [process_request, hf, he]
    | error e => simp [process_request, hf, he]

/-- Helper: a batch of `SetManual` requests whose fan ids avoid `k` leaves
the assignment of `k` unchanged. -/
theorem setManualBatch_preserves (env : HwEnv) (pairs : List (String × ℕ))
    (st : DaemonState) (k : String) (h : k ∉ pairs.map Prod.fst) :
    List.lookup k (runRequests env (setManualBatch pairs) st).2.config.fans =
      List.lookup k st.config.fans := by
  induction pairs generalizing st with
  | nil => simp [runRequests, setManualBatch]
  | cons pr rest ih =>
    rw [List.map_cons, List.mem_cons] at h
    push_neg at h
    rw [setManualBatch, List.map_cons, runRequests_cons]
    have hrest := ih (process_request env (Request.setManual pr.1 pr.2) st).2 h.2
    rw [setManualBatch] at hrest
    rw [hrest]
    exact setManual_preserves_other env pr.1 pr.2 st k h.1

/-- **C9.** No lost update under concurrent `SetManual`: the single exclusive
lock makes each request an atomic read-modify-write, so N concurrent
`SetManual` requests for distinct resolvable fan ids execute in some arrival
order; in every such order, with every hardware write succeeding, all
responses are acks and the final fan-assignment table holds all N
`Manual(duty)` entries. -/
theorem setManual_no_lost_update (env : HwEnv) (st : DaemonState)
    (pairs : List (String × ℕ))
    (hok : ∀ f pwm, env.set_manual_pwm f pwm = Except.ok ())
    (hnodup : (pairs.map Prod.fst).Nodup)
    (hres : ∀ pr ∈ pairs, ∃ f ∈ st.fans, f.id = pr.1) :
    (∀ resp ∈ (runRequests env (setManualBatch pairs) st).1,
      ∃ m, resp = Response.ok m) ∧
    (∀ pr ∈ pairs,
      List.lookup pr.1 (runRequests env (setManualBatch pairs) st).2.config.fans =
        some (FanAssignment.manual pr.2)) := by
  induction pairs generalizing st with
  | nil =>
    constructor
    · intro resp hmem
      simp [runRequests, setManualBatch] at hmem
    · intro pr hpr
      simp at hpr
  | cons pr rest ih =>
    obtain ⟨f, hf_mem, hf_id⟩ := hres pr (List.mem_cons_self pr rest)
    have hfind : ∃ f', st.fans.find? (fun g => g.id == pr.1) = some f' := by
      rw [← Option.isSome_iff_exists, List.find?_isSome]
      exact ⟨f, hf_mem, by simp [hf_id]⟩
    obtain ⟨f', hf'⟩ := hfind
    have hstep : process_request env (Request.setManual pr.1 pr.2) st =
        (Response.ok ("Set " ++ pr.1 ++ " to manual PWM " ++ toString pr.2),
         { st with config := { st.config with
            fans := insertAssignment st.config.fans pr.1 (.manual pr.2) } }) := by
      simp [process_request, hf', hok]
    rw [List.map_cons, List.nodup_cons] at hnodup
    have hres1 : ∀ pr' ∈ rest,
        ∃ g ∈ (process_request env (Request.setManual pr.1 pr.2) st).2.fans,
          g.id = pr'.1 := by
      intro pr' hpr'
      rw [setManual_preserves_hw]
      exact hres pr' (List.mem_cons_of_mem pr hpr')
    obtain ⟨ihresp, ihlook⟩ :=
      ih (process_request env (Request.setManual pr.1 pr.2) st).2 hnodup.2 hres1
    constructor
    · intro resp hmem
      rw [setManualBatch, List.map_cons, runRequests_cons] at hmem
      rcases List.mem_cons.1 hmem with hh | hh
      · subst hh
        rw [hstep]
        exact ⟨_, rfl⟩
      · exact ihresp resp (by rw [setManualBatch]; exact hh)
    · intro pr' hpr'
      rw [setManualBatch, List.map_cons, runRequests_cons]
      rcases List.mem_cons.1 hpr' with hh | hh
      · subst hh
        have hpres := setManualBatch_preserves env rest
          (process_request env (Request.setManual pr'.1 pr'.2) st).2 pr'.1 hnodup.1
        rw [setManualBatch] at hpres
        rw [hpres, hstep]
        exact lookup_insertAssignment_self st.config.fans pr'.1 (.manual pr'.2)
      · have := ihlook pr' hh
        rw [setManualBatch] at this
        exact this

/-- Witness for C9: two `SetManual` requests for the fixture's two distinct
fans, with all hardware writes succeeding, leave both manual assignments in
the final configuration. -/
theorem setManual_no_lost_update_witness :
    List.lookup "hwmon3/pwm1"
        (runRequests envFixture
          (setManualBatch [("hwmon3/pwm1", 100), ("hwmon3/pwm2", 200)])
          stFixture).2.config.fans = some (FanAssignment.manual 100) ∧
    List.lookup "hwmon3/pwm2"
        (runRequests envFixture
          (setManualBatch [("hwmon3/pwm1", 100), ("hwmon3/pwm2", 200)])
          stFixture).2.config.fans = some (FanAssignment.manual 200) := by
  have h := setManual_no_lost_update envFixture stFixture
    [("hwmon3/pwm1", 100), ("hwmon3/pwm2", 200)]
    (fun _ _ => rfl) (by decide)
    (by
      intro pr hpr
      rcases List.mem_cons.1 hpr with rfl | hpr'
      · exact ⟨fanFixture "hwmon3/pwm1", by simp [stFixture], rfl⟩
      · rcases List.mem_cons.1 hpr' with rfl | hpr''
        · exact ⟨fanFixture "hwmon3/pwm2", by simp [stFixture], rfl⟩
        · simp at hpr'')
  exact ⟨h.2 ("hwmon3/pwm1", 100) (by simp), h.2 ("hwmon3/pwm2", 200) (by simp)⟩

/-- Helper: a successful fallible merge permutes the concatenation of its
inputs. -/
theorem mergeByM_perm {α : Type} (cmp : α → α → Option Ordering) (xs : List α) :
    ∀ ys l : List α, mergeByM cmp xs ys = some l → l.Perm (xs ++ ys) := by
  induction xs with
  | nil =>
    intro ys l h
    simp [mergeByM] at h
    subst h
    exact List.Perm.refl _
  | cons x xs ih =>
    intro ys
    induction ys with
    | nil =>
      intro l h
      simp [mergeByM] at h
      subst h
      simp
    | cons y ys ih2 =>
      intro l h
      rw [mergeByM] at h
      cases hc : cmp x y with
      | none => rw [hc] at h; simp at h
      | some o =>
        rw [hc] at h
        dsimp only at h
        by_cases ho : o = Ordering.gt
        · rw [if_pos ho] at h
          cases hm : mergeByM cmp (x :: xs) ys with
          | none => rw [hm] at h; simp at h
          | some l1 =>
            rw [hm] at h
            simp only [Option.map_some', Option.some.injEq] at h
            subst h
            exact ((ih2 l1 hm).cons y).trans List.perm_middle.symm
        · rw [if_neg ho] at h
          cases hm : mergeByM cmp xs (y :: ys) with
          | none => rw [hm] at h; simp at h
          | some l1 =>
            rw [hm] at h
            simp only [Option.map_some', Option.some.injEq] at h
            subst h
            exact (ih (y :: ys) l1 hm).cons x

/-- Helper: a successful fallible merge sort permutes its input. -/
theorem sortByM_perm {α : Type} (cmp : α → α → Option Ordering) :
    ∀ (n : ℕ) (l l' : List α), l.length ≤ n → sortByM cmp l = some l' → l'.Perm l := by
  intro n
  induction n with
  | zero =>
    intro l l' hlen h
    rw [List.length_eq_zero.1 (Nat.le_zero.1 hlen)] at h ⊢
    simp [sortByM] at h
    subst h
    exact List.Perm.refl _
  | succ n ih =>
    intro l l' hlen h
    match l with
    | [] =>
      simp [sortByM] at h
      subst h
      exact List.Perm.refl _
    | [a] =>
      simp [sortByM] at h
      subst h
      exact List.Perm.refl _
    | a :: b :: rest =>
      rw [sortByM] at h
      cases h1 : sortByM cmp ((a :: b :: rest).take ((rest.length + 2) / 2)) with
      | none => rw [h1] at h; simp at h
      | some xs =>
        cases h2 : sortByM cmp ((a :: b :: rest).drop ((rest.length + 2) / 2)) with
        | none => rw [h1, h2] at h; simp at h
        | some ys =>
          rw [h1, h2] at h
          have hk1 : ((a :: b :: rest).take ((rest.length + 2) / 2)).length ≤ n := by
            simp only [List.length_take, List.length_cons]
            simp only [List.length_cons] at hlen
            omega
          have hk2 : ((a :: b :: rest).drop ((rest.length + 2) / 2)).length ≤ n := by
            simp only [List.length_drop, List.length_cons]
            simp only [List.length_cons] at hlen
            omega
          have p1 := ih _ _ hk1 h1
          have p2 := ih _ _ hk2 h2
          have pm := mergeByM_perm cmp xs ys l' h
          exact pm.trans ((p1.append p2).trans
            (by rw [List.take_append_drop]))

/-- Helper: the comparator outcome is `gt` exactly when the second
temperature is strictly below the first. -/
theorem cmpOrd_eq_gt_iff (a b : ℚ) :
    (if a < b then Ordering.lt else if a = b then Ordering.eq else Ordering.gt) =
      Ordering.gt ↔ b < a := by
  split_ifs with h1 h2
  · exact iff_of_false (by decide) (lt_asymm h1)
  · exact iff_of_false (by decide) (by rw [h2]; exact lt_irrefl b)
  · exact iff_of_true rfl (lt_of_le_of_ne (not_lt.1 h1) (Ne.symm h2))

/-- Helper: `partial_cmp` with a NaN on the right is `None`. -/
theorem cmpTemp_none_right (q : Option ℚ) : cmpTemp q none = none := by
  cases q <;> rfl

/-- Helper: merging two sorted NaN-free runs succeeds and yields a sorted
run whose head is one of the input heads. -/
theorem mergeByM_sorted (xs : List CurvePointF) :
    ∀ ys : List CurvePointF,
    (∀ p ∈ xs, p.temp_c ≠ none) → (∀ p ∈ ys, p.temp_c ≠ none) →
    List.Chain' tempLeF xs → List.Chain' tempLeF ys →
    ∃ l, mergeByM cmpPointF xs ys = some l ∧ List.Chain' tempLeF l ∧
      (∀ z, l.head? = some z → xs.head? = some z ∨ ys.head? = some z) := by
  induction xs with
  | nil =>
    intro ys _ _ _ sy
    exact ⟨ys, by simp [mergeByM], sy, fun z hz => Or.inr hz⟩
  | cons x xs ih =>
    intro ys hx hy sx sy
    induction ys with
    | nil =>
      exact ⟨x :: xs, by simp [mergeByM], sx, fun z hz => Or.inl hz⟩
    | cons y ys ih2 =>
      cases hxa : x.temp_c with
      | none => exact absurd hxa (hx x (List.mem_cons_self x xs))
      | some a =>
        cases hyb : y.temp_c with
        | none => exact absurd hyb (hy y (List.mem_cons_self y ys))
        | some b =>
          have hcmp : cmpPointF x y =
              some (if a < b then Ordering.lt else if a = b then Ordering.eq
                else Ordering.gt) := by
            simp [cmpPointF, cmpTemp, hxa, hyb]
          by_cases hab : b < a
          · have ho : (if a < b then Ordering.lt else if a = b then Ordering.eq
                else Ordering.gt) = Ordering.gt := (cmpOrd_eq_gt_iff a b).2 hab
            obtain ⟨l1, hl1, sl1, hh1⟩ :=
              ih2 (fun p hp => hy p (List.mem_cons_of_mem y hp))
                (List.chain'_cons'.1 sy).2
            refine ⟨y :: l1, ?_, ?_, ?_⟩
            · rw [mergeByM, hcmp]
              dsimp only
              rw [if_pos ho, hl1]
              rfl
            · refine List.chain'_cons'.2 ⟨?_, sl1⟩
              intro z hz
              rcases hh1 z hz with hz1 | hz1
              · rw [List.head?_cons, Option.some.injEq] at hz1
                subst hz1
                simp [tempLeF, hxa, hyb]
                exact le_of_lt hab
              · exact (List.chain'_cons'.1 sy).1 z hz1
            · intro z hz
              rw [List.head?_cons, Option.some.injEq] at hz
              subst hz
              exact Or.inr rfl
          · have ho : ¬ (if a < b then Ordering.lt else if a = b then Ordering.eq
                else Ordering.gt) = Ordering.gt := fun hgt =>
              hab ((cmpOrd_eq_gt_iff a b).1 hgt)
            obtain ⟨l1, hl1, sl1, hh1⟩ :=
              ih (y :: ys) (fun p hp => hx p (List.mem_cons_of_mem x hp)) hy
                (List.chain'_cons'.1 sx).2 sy
            refine ⟨x :: l1, ?_, ?_, ?_⟩
            · rw [mergeByM, hcmp]
              dsimp only
              rw [if_neg ho, hl1]
              rfl
            · refine List.chain'_cons'.2 ⟨?_, sl1⟩
              intro z hz
              rcases hh1 z hz with hz1 | hz1
              · exact (List.chain'_cons'.1 sx).1 z hz1
              · rw [List.head?_cons, Option.some.injEq] at hz1
                subst hz1
                simp [tempLeF, hxa, hyb]
                exact not_lt.1 hab
            · intro z hz
              rw [List.head?_cons, Option.some.injEq] at hz
              subst hz
              exact Or.inl rfl

/-- Helper: on a NaN-free point list, the fallible sort succeeds and yields a
sorted permutation of its input (induction on a length bound). -/
theorem sortByM_noNaN_aux :
    ∀ (n : ℕ) (l : List CurvePointF), l.length ≤ n →
    (∀ p ∈ l, p.temp_c ≠ none) →
    ∃ l', sortByM cmpPointF l = some l' ∧ l'.Perm l ∧ List.Chain' tempLeF l' := by
  intro n
  induction n with
  | zero =>
    intro l hlen _
    have hnil : l = [] := List.length_eq_zero.1 (Nat.le_zero.1 hlen)
    subst hnil
    exact ⟨[], by simp [sortByM], List.Perm.refl _, List.chain'_nil⟩
  | succ n ih =>
    intro l hlen hnn
    match l with
    | [] => exact ⟨[], by simp [sortByM], List.Perm.refl _, List.chain'_nil⟩
    | [a] => exact ⟨[a], by simp [sortByM], List.Perm.refl _, List.chain'_singleton a⟩
    | a :: b :: rest =>
      simp only [List.length_cons] at hlen
      obtain ⟨xs, hxs, pxs, sxs⟩ :=
        ih ((a :: b :: rest).take ((rest.length + 2) / 2))
          (by simp only [List.length_take, List.length_cons]; omega)
          (fun p hp => hnn p (List.take_subset _ _ hp))
      obtain ⟨ys, hys, pys, sys⟩ :=
        ih ((a :: b :: rest).drop ((rest.length + 2) / 2))
          (by simp only [List.length_drop, List.length_cons]; omega)
          (fun p hp => hnn p (List.drop_subset _ _ hp))
      obtain ⟨l', hm, sl', _⟩ := mergeByM_sorted xs ys
        (fun p hp => hnn p (List.take_subset _ _ (pxs.subset hp)))
        (fun p hp => hnn p (List.drop_subset _ _ (pys.subset hp)))
        sxs sys
      refine ⟨l', ?_, ?_, sl'⟩
      · rw [sortByM, hxs, hys]
        exact hm
      · exact (mergeByM_perm cmpPointF xs ys l' hm).trans
          ((pxs.append pys).trans (by rw [List.take_append_drop]))

/-- Helper: one-step unfolding of the fallible merge on two nonempty
lists. -/
theorem mergeByM_cons_cons {α : Type} (cmp : α → α → Option Ordering) (x y : α)
    (xs ys : List α) :
    mergeByM cmp (x :: xs) (y :: ys) =
      match cmp x y with
      | none => none
      | some o =>
        if o = Ordering.gt then (mergeByM cmp (x :: xs) ys).map (fun l => y :: l)
        else (mergeByM cmp xs (y :: ys)).map (fun l => x :: l) := by
  rw [mergeByM]

/-- Helper: a point list with at least two points, one of which has a NaN
temperature, makes the fallible sort panic (induction on a length bound). -/
theorem sortByM_nan_aux :
    ∀ (n : ℕ) (l : List CurvePointF), l.length ≤ n → 2 ≤ l.length →
    (∃ p ∈ l, p.temp_c = none) → sortByM cmpPointF l = none := by
  intro n
  induction n with
  | zero => intro l hlen h2 _; omega
  | succ n ih =>
    rintro l hlen h2 ⟨p, hp_mem, hp_nan⟩
    match l with
    | [] => simp at h2
    | [a] => simp at h2
    | a :: b :: rest =>
      simp only [List.length_cons] at hlen
      have hsplit : p ∈ (a :: b :: rest).take ((rest.length + 2) / 2) ∨
          p ∈ (a :: b :: rest).drop ((rest.length + 2) / 2) := by
        rw [← List.mem_append, List.take_append_drop]
        exact hp_mem
      rw [sortByM]
      rcases hsplit with hp1 | hp2
      · by_cases hk : 2 ≤ ((a :: b :: rest).take ((rest.length + 2) / 2)).length
        · rw [ih _ (by simp only [List.length_take, List.length_cons]; omega) hk
            ⟨p, hp1, hp_nan⟩]
        · have hkeq : (rest.length + 2) / 2 = 1 := by
            simp only [List.length_take, List.length_cons] at hk
            omega
          rw [hkeq] at hp1 ⊢
          have htake : (a :: b :: rest).take 1 = [a] := rfl
          rw [htake] at hp1 ⊢
          have ha_nan : a.temp_c = none := by
            have hpa : p = a := by simpa using hp1
            rw [← hpa]
            exact hp_nan
          have hsing : sortByM cmpPointF [a] = some [a] := by simp [sortByM]
          rw [hsing]
          cases hys : sortByM cmpPointF ((a :: b :: rest).drop 1) with
          | none => rfl
          | some ys =>
            have hylen : ys.length = ((a :: b :: rest).drop 1).length :=
              (sortByM_perm cmpPointF n ((a :: b :: rest).drop 1) ys
                (by simp only [List.length_drop, List.length_cons]; omega)
                hys).length_eq
            have hypos : 1 ≤ ys.length := by
              rw [hylen]
              simp only [List.length_drop, List.length_cons]
              omega
            match ys, hypos with
            | y :: ys', _ =>
              show mergeByM cmpPointF [a] (y :: ys') = none
              rw [mergeByM_cons_cons]
              have hcn : cmpPointF a y = none := by
                simp [cmpPointF, cmpTemp, ha_nan]
              rw [hcn]
      · by_cases hk : 2 ≤ ((a :: b :: rest).drop ((rest.length + 2) / 2)).length
        · rw [ih _ (by simp only [List.length_drop, List.length_cons]; omega) hk
            ⟨p, hp2, hp_nan⟩]
          cases sortByM cmpPointF ((a :: b :: rest).take ((rest.length + 2) / 2)) <;> rfl
        · have hk1 : ((a :: b :: rest).drop ((rest.length + 2) / 2)).length = 1 := by
            simp only [List.length_drop, List.length_cons] at hk ⊢
            omega
          have hdrop_eq : (a :: b :: rest).drop ((rest.length + 2) / 2) = [p] := by
            cases hd : (a :: b :: rest).drop ((rest.length + 2) / 2) with
            | nil => rw [hd] at hk1; simp at hk1
            | cons z zs =>
              rw [hd] at hk1 hp2
              simp only [List.length_cons] at hk1
              have hzs : zs = [] := List.length_eq_zero.1 (by omega)
              subst hzs
              have hpz : p = z := by simpa using hp2
              rw [hpz]
          rw [hdrop_eq]
          cases hxs : sortByM cmpPointF ((a :: b :: rest).take ((rest.length + 2) / 2)) with
          | none => rfl
          | some xs =>
            have hxlen : xs.length =
                ((a :: b :: rest).take ((rest.length + 2) / 2)).length :=
              (sortByM_perm cmpPointF n _ xs
                (by simp only [List.length_take, List.length_cons]; omega) hxs).length_eq
            have hxpos : 1 ≤ xs.length := by
              rw [hxlen]
              simp only [List.length_take, List.length_cons]
              omega
            match xs, hxpos with
            | x :: xs', _ =>
              have hsingp : sortByM cmpPointF [p] = some [p] := by simp [sortByM]
              rw [hsingp]
              show mergeByM cmpPointF (x :: xs') [p] = none
              rw [mergeByM_cons_cons]
              have hcn : cmpPointF x p = none := by
                simp [cmpPointF, hp_nan, cmpTemp_none_right]
              rw [hcn]

/-- Counterexample to **C10** as stated: a one-point list whose temperature
is NaN does not make `FanCurve::new` panic — a sort of a slice with fewer
than two elements never calls the comparator, so construction succeeds and
returns the point unchanged. -/
theorem new_nan_singleton_counterexample :
    FanCurveF.new "x" [⟨none, 5⟩] = some ⟨"x", [⟨none, 5⟩]⟩ ∧
    (⟨none, 5⟩ : CurvePointF).temp_c = none := by
  constructor
  · norm_num [FanCurveF.new, sortByM]
  · rfl

/-- **C10 (amended).** `FanCurve::new` is partial in the presence of NaN
temperatures: for every point list with at least two points at least one of
which has a NaN temperature, the sort comparator unwraps a `None`
`partial_cmp` and construction panics (so an `UpsertCurve` with such points
aborts in the constructor rather than answering `InvalidCurve`); for every
point list whose temperatures are all non-NaN, construction is total and
returns the points sorted ascending by temperature. -/
theorem new_nan_panics (name : String) (points : List CurvePointF) :
    (2 ≤ points.length → (∃ p ∈ points, p.temp_c = none) →
      FanCurveF.new name points = none) ∧
    ((∀ p ∈ points, p.temp_c ≠ none) →
      ∃ c, FanCurveF.new name points = some c ∧ c.name = name ∧
        c.points.Perm points ∧ List.Chain' tempLeF c.points) := by
  constructor
  · intro h2 hnan
    unfold FanCurveF.new
    rw [sortByM_nan_aux points.length points le_rfl h2 hnan]
    rfl
  · intro hnn
    obtain ⟨l', hs, hperm, hchain⟩ :=
      sortByM_noNaN_aux points.length points le_rfl hnn
    refine ⟨⟨name, l'⟩, ?_, rfl, hperm, hchain⟩
    unfold FanCurveF.new
    rw [hs]
    rfl

/-- Witness for C10: a two-point list with one NaN temperature panics in the
constructor; a NaN-free singleton-free list constructs totally and sorted. -/
theorem new_nan_panics_witness :
    FanCurveF.new "x" [⟨none, 5⟩, ⟨some 3, 0⟩] = none ∧
    (∃ c, FanCurveF.new "y" [⟨some 1, 2⟩] = some c ∧ c.name = "y" ∧
      c.points.Perm [⟨some 1, 2⟩] ∧ List.Chain' tempLeF c.points) :=
  ⟨(new_nan_panics "x" [⟨none, 5⟩, ⟨some 3, 0⟩]).1 (by simp)
      ⟨⟨none, 5⟩, by simp, rfl⟩,
   (new_nan_panics "y" [⟨some 1, 2⟩]).2 (by simp)⟩
